import Mathlib

/-!
Verification of the `datasets` packaging metadata and of the dataset-core
design (columnar table store, fingerprint engine, transform cache manager,
lazy view composition, streaming iterator) described by the repository's
specification.  The packaging lists are embedded directly from `setup.py`;
the core components, whose implementation is not part of the visible
source, are modelled from the specification's words.
-/

/-! ## Packaging metadata, embedded from `src/setup.py` -/

/-- `REQUIRED_PKGS` of `setup.py` (lines 63-95): the base `install_requires`. -/
def REQUIRED_PKGS : List String := [
  "numpy>=1.17",
  "pyarrow>=6.0.0",
  "dill<0.3.6",
  "pandas",
  "requests>=2.19.0",
  "tqdm>=4.62.1",
  "dataclasses;python_version<'3.7'",
  "xxhash",
  "multiprocess",
  "importlib_metadata;python_version<'3.8'",
  "fsspec[http]>=2021.05.0",
  "aiohttp",
  "huggingface-hub>=0.1.0,<1.0.0",
  "packaging",
  "responses<0.19"]

/-- `AUDIO_REQUIRE` of `setup.py` (lines 97-99). -/
def AUDIO_REQUIRE : List String := ["librosa"]

/-- `VISION_REQURE` of `setup.py` (lines 101-103); the name keeps the source's spelling. -/
def VISION_REQURE : List String := ["Pillow>=6.2.1"]

/-- `BENCHMARKS_REQUIRE` of `setup.py` (lines 105-110). -/
def BENCHMARKS_REQUIRE : List String := [
  "numpy==1.18.5",
  "tensorflow==2.3.0",
  "torch==1.6.0",
  "transformers==3.0.2"]

/-- `TESTS_REQUIRE` of `setup.py` as first assigned (lines 112-170), before the
two `extend` calls of lines 172-173. -/
def TESTS_REQUIRE_initial : List String := [
  "absl-py",
  "pytest",
  "pytest-datadir",
  "pytest-xdist",
  "apache-beam>=2.26.0",
  "elasticsearch<8.0.0",
  "aiobotocore==1.4.2",
  "boto3==1.17.106",
  "botocore==1.20.106",
  "faiss-cpu>=1.6.4",
  "fsspec[s3]",
  "moto[s3,server]==2.0.4",
  "rarfile>=4.0",
  "s3fs==2021.08.1",
  "tensorflow>=2.3,!=2.6.0,!=2.6.1",
  "torch",
  "torchaudio",
  "soundfile",
  "transformers",
  "bs4",
  "conllu",
  "h5py",
  "langdetect",
  "lxml",
  "lz4",
  "mwparserfromhell",
  "nltk",
  "openpyxl",
  "py7zr",
  "tldextract",
  "zstandard",
  "bigbench @ https://storage.googleapis.com/public_research_data/bigbench/bigbench-0.0.1.tar.gz",
  "sentencepiece",
  "sacremoses",
  "bert_score>=0.3.6",
  "jiwer",
  "mauve-text",
  "rouge_score",
  "sacrebleu",
  "sacremoses",
  "scikit-learn",
  "scipy",
  "sentencepiece",
  "seqeval",
  "toml>=0.10.1",
  "requests_file>=1.5.1",
  "tldextract>=3.1.0",
  "texttable>=1.6.3",
  "Werkzeug>=1.0.1",
  "six~=1.15.0",
  "importlib_resources;python_version<'3.7'"]

/-- `TESTS_REQUIRE` after module evaluation: lines 172-173 extend it in place
with `VISION_REQURE` and then `AUDIO_REQUIRE`. -/
def TESTS_REQUIRE : List String :=
  TESTS_REQUIRE_initial ++ VISION_REQURE ++ AUDIO_REQUIRE

/-- `QUALITY_REQUIRE` of `setup.py` (line 175). -/
def QUALITY_REQUIRE : List String :=
  ["black~=22.0", "flake8>=3.8.3", "isort>=5.0.0", "pyyaml>=5.3.1"]

/-- `EXTRAS_REQUIRE` of `setup.py` (lines 178-200), as the ordered
key-to-package-list mapping the dict literal builds. -/
def EXTRAS_REQUIRE : List (String × List String) := [
  ("audio", AUDIO_REQUIRE),
  ("vision", VISION_REQURE),
  ("apache-beam", ["apache-beam>=2.26.0"]),
  ("tensorflow", ["tensorflow>=2.2.0,!=2.6.0,!=2.6.1"]),
  ("tensorflow_gpu", ["tensorflow-gpu>=2.2.0,!=2.6.0,!=2.6.1"]),
  ("torch", ["torch"]),
  ("s3", ["fsspec", "boto3", "botocore", "s3fs"]),
  ("streaming", []),
  ("dev", TESTS_REQUIRE ++ QUALITY_REQUIRE),
  ("tests", TESTS_REQUIRE),
  ("quality", QUALITY_REQUIRE),
  ("benchmarks", BENCHMARKS_REQUIRE),
  ("docs", ["s3fs"])]

/-- Dict lookup on `EXTRAS_REQUIRE`, as `EXTRAS_REQUIRE[key]` in `setup.py`. -/
def lookupExtra (key : String) : Option (List String) :=
  (EXTRAS_REQUIRE.find? (fun p => p.1 == key)).map Prod.snd

/-- C9: the extras mapping binds the key "streaming" to the empty list, so the
"streaming" extra requests no package beyond the base `install_requires`. -/
theorem streaming_extra_is_empty :
    lookupExtra "streaming" = some [] := by decide

/-- C10: after module evaluation `TESTS_REQUIRE` contains every package of
`VISION_REQURE` and of `AUDIO_REQUIRE`, the "dev" extra equals `TESTS_REQUIRE`
followed by `QUALITY_REQUIRE`, and consequently the "tests" and "dev" extras
contain every package of the "vision" and "audio" extras and the "dev" extra
also contains every package of the "quality" extra. -/
theorem tests_and_dev_extras_are_supersets :
    VISION_REQURE.all TESTS_REQUIRE.contains = true ∧
    AUDIO_REQUIRE.all TESTS_REQUIRE.contains = true ∧
    lookupExtra "dev" = some (TESTS_REQUIRE ++ QUALITY_REQUIRE) ∧
    (∃ vision tests, lookupExtra "vision" = some vision ∧
      lookupExtra "tests" = some tests ∧ vision.all tests.contains = true) ∧
    (∃ audio tests, lookupExtra "audio" = some audio ∧
      lookupExtra "tests" = some tests ∧ audio.all tests.contains = true) ∧
    (∃ vision dev, lookupExtra "vision" = some vision ∧
      lookupExtra "dev" = some dev ∧ vision.all dev.contains = true) ∧
    (∃ audio dev, lookupExtra "audio" = some audio ∧
      lookupExtra "dev" = some dev ∧ audio.all dev.contains = true) ∧
    (∃ quality dev, lookupExtra "quality" = some quality ∧
      lookupExtra "dev" = some dev ∧ quality.all dev.contains = true) := by
  refine ⟨by decide, by decide, by decide, ?_, ?_, ?_, ?_, ?_⟩ <;>
    exact ⟨_, _, rfl, rfl, by decide⟩

/-! ## Data model of the core

Modelled from the spec: the implementation of the dataset core is not part
of the visible source (only `setup.py` is), so the Table data model of §3 is
embedded from the specification's words: a Table is an immutable columnar
block with a schema (column name to semantic type) and a row count. -/

/-- Modelled from the spec: a cell value of a column (§3, §6 schema service). -/
inductive Value where
  | int (n : Int)
  | str (s : String)
deriving DecidableEq, Repr

/-- Modelled from the spec: a column's semantic type (§6 feature schema). -/
inductive ColType where
  | int
  | str
deriving DecidableEq, Repr

/-- Modelled from the spec: an immutable columnar Table (§3): a schema mapping
column names to types, and the ordered rows. -/
structure Table where
  schema : List (String × ColType)
  rows : List (List Value)
deriving DecidableEq, Repr

/-- The number of rows of a Table. -/
def Table.numRows (t : Table) : Nat := t.rows.length

/-! ## Byte-level serialization of Tables

Modelled from the spec: §4.1 writes a Table to an on-disk file and loads it
back by memory-mapping; the file content is modelled as a list of bytes
(naturals).  `CorruptTableError` of §7 corresponds to a failed decode. -/

/-- Byte encoding of a string: its length followed by its character codes. -/
def encodeString (s : String) : List Nat :=
  s.data.length :: s.data.map Char.toNat

/-- Decode a string from a byte stream, returning the remaining stream. -/
def decodeString : List Nat → Option (String × List Nat)
  | [] => none
  | n :: rest =>
    if n ≤ rest.length then
      some (String.mk ((rest.take n).map Char.ofNat), rest.drop n)
    else none

/-- Byte encoding of an integer: a sign tag and a magnitude. -/
def encodeInt : Int → List Nat
  | Int.ofNat m => [0, m]
  | Int.negSucc m => [1, m]

/-- Decode an integer from a byte stream. -/
def decodeInt : List Nat → Option (Int × List Nat)
  | 0 :: m :: rest => some (Int.ofNat m, rest)
  | 1 :: m :: rest => some (Int.negSucc m, rest)
  | _ => none

/-- Byte encoding of a cell value: a type tag followed by the payload. -/
def encodeVal : Value → List Nat
  | Value.int n => 0 :: encodeInt n
  | Value.str s => 1 :: encodeString s

/-- Decode a cell value from a byte stream. -/
def decodeVal : List Nat → Option (Value × List Nat)
  | 0 :: rest => (decodeInt rest).map fun p => (Value.int p.1, p.2)
  | 1 :: rest => (decodeString rest).map fun p => (Value.str p.1, p.2)
  | _ => none

/-- Byte encoding of a column type. -/
def encodeColType : ColType → List Nat
  | ColType.int => [0]
  | ColType.str => [1]

/-- Decode a column type from a byte stream. -/
def decodeColType : List Nat → Option (ColType × List Nat)
  | 0 :: rest => some (ColType.int, rest)
  | 1 :: rest => some (ColType.str, rest)
  | _ => none

/-- Concatenated encodings of the elements of a list. -/
def encodeEach (enc : α → List Nat) : List α → List Nat
  | [] => []
  | a :: as => enc a ++ encodeEach enc as

/-- Byte encoding of a list: its length followed by its elements' encodings. -/
def encodeList (enc : α → List Nat) (xs : List α) : List Nat :=
  xs.length :: encodeEach enc xs

/-- Decode exactly `n` elements from a byte stream. -/
def decodeCount (dec : List Nat → Option (α × List Nat)) :
    Nat → List Nat → Option (List α × List Nat)
  | 0, bs => some ([], bs)
  | n + 1, bs =>
    match dec bs with
    | none => none
    | some (a, bs₁) =>
      match decodeCount dec n bs₁ with
      | none => none
      | some (as, bs₂) => some (a :: as, bs₂)

/-- Decode a length-prefixed list from a byte stream. -/
def decodeList (dec : List Nat → Option (α × List Nat)) :
    List Nat → Option (List α × List Nat)
  | [] => none
  | n :: bs => decodeCount dec n bs

/-- Byte encoding of one schema column: its name then its type. -/
def encodeCol (c : String × ColType) : List Nat :=
  encodeString c.1 ++ encodeColType c.2

/-- Decode one schema column from a byte stream. -/
def decodeCol (bs : List Nat) : Option ((String × ColType) × List Nat) :=
  match decodeString bs with
  | none => none
  | some (name, bs₁) =>
    match decodeColType bs₁ with
    | none => none
    | some (ty, bs₂) => some ((name, ty), bs₂)

/-- Byte encoding of one row: the length-prefixed list of its cells. -/
def encodeRow (r : List Value) : List Nat := encodeList encodeVal r

/-- Decode one row from a byte stream. -/
def decodeRow (bs : List Nat) : Option (List Value × List Nat) :=
  decodeList decodeVal bs

/-- The file content of a Table: its schema block then its row block. -/
def Table.bytes (t : Table) : List Nat :=
  encodeList encodeCol t.schema ++ encodeList encodeRow t.rows

/-- Decode a whole Table file; any leftover bytes mean a corrupt layout. -/
def decodeTable (bs : List Nat) : Option Table :=
  match decodeList decodeCol bs with
  | none => none
  | some (schema, bs₁) =>
    match decodeList decodeRow bs₁ with
    | none => none
    | some (rows, bs₂) =>
      if bs₂ = [] then some ⟨schema, rows⟩ else none

theorem decodeString_encodeString (s : String) (r : List Nat) :
    decodeString (encodeString s ++ r) = some (s, r) := by
  simp only [encodeString, decodeString, List.cons_append]
  rw [if_pos]
  · rw [List.take_append_of_le_length (by simp), List.take_of_length_le (by simp),
      List.drop_append_of_le_length (by simp), List.drop_of_length_le (by simp),
      List.map_map]
    have hco : Char.ofNat ∘ Char.toNat = id := funext Char.ofNat_toNat
    rw [hco, List.map_id, List.nil_append]
  · simp

theorem decodeInt_encodeInt (n : Int) (r : List Nat) :
    decodeInt (encodeInt n ++ r) = some (n, r) := by
  cases n <;> rfl

theorem decodeVal_encodeVal (v : Value) (r : List Nat) :
    decodeVal (encodeVal v ++ r) = some (v, r) := by
  cases v with
  | int n => simp [encodeVal, decodeVal, decodeInt_encodeInt]
  | str s => simp [encodeVal, decodeVal, decodeString_encodeString]

theorem decodeColType_encodeColType (c : ColType) (r : List Nat) :
    decodeColType (encodeColType c ++ r) = some (c, r) := by
  cases c <;> rfl

theorem decodeCount_encodeEach {enc : α → List Nat}
    {dec : List Nat → Option (α × List Nat)}
    (h : ∀ a r, dec (enc a ++ r) = some (a, r)) (xs : List α) (r : List Nat) :
    decodeCount dec xs.length (encodeEach enc xs ++ r) = some (xs, r) := by
  induction xs with
  | nil => rfl
  | cons a as ih =>
    simp only [encodeEach, List.length_cons, List.append_assoc, decodeCount, h, ih]

theorem decodeList_encodeList {enc : α → List Nat}
    {dec : List Nat → Option (α × List Nat)}
    (h : ∀ a r, dec (enc a ++ r) = some (a, r)) (xs : List α) (r : List Nat) :
    decodeList dec (encodeList enc xs ++ r) = some (xs, r) := by
  simp only [encodeList, List.cons_append, decodeList,
    decodeCount_encodeEach h]

theorem decodeCol_encodeCol (c : String × ColType) (r : List Nat) :
    decodeCol (encodeCol c ++ r) = some (c, r) := by
  simp only [encodeCol, decodeCol, List.append_assoc, decodeString_encodeString,
    decodeColType_encodeColType]

theorem decodeRow_encodeRow (row : List Value) (r : List Nat) :
    decodeRow (encodeRow row ++ r) = some (row, r) :=
  decodeList_encodeList decodeVal_encodeVal row r

theorem decodeTable_bytes (t : Table) : decodeTable t.bytes = some t := by
  have h₁ := decodeList_encodeList decodeCol_encodeCol t.schema
    (encodeList encodeRow t.rows)
  have h₂ := decodeList_encodeList decodeRow_encodeRow t.rows ([] : List Nat)
  simp only [List.append_nil] at h₂
  simp [Table.bytes, decodeTable, h₁, h₂]

/-! ## Columnar Table Store (§4.1)

Modelled from the spec: only packaging metadata is in the visible source, so
the store of §4.1 is embedded from the specification: `write(rows, schema)`
materializes a new immutable table file and returns a handle to it, and
`load(path)` maps an existing file, failing with `CorruptTableError` when the
header/schema is unreadable or the length does not match the layout. -/

/-- Modelled from the spec: §7, a stored table unreadable or inconsistent. -/
inductive CorruptTableError where
  | corrupt (path : String)
deriving DecidableEq, Repr

/-- Modelled from the spec: the on-disk state seen by the Table Store, a
mapping from file path to file bytes. -/
structure TableStore where
  files : List (String × List Nat)
deriving DecidableEq, Repr

/-- A path not yet used by any file of the store (§6: deterministic,
collision-free naming). -/
def freshPath (st : TableStore) : String :=
  "cache-" ++ toString st.files.length

/-- Modelled from the spec: `write(rows, schema) -> Table` materializes a new
immutable table file; the returned handle is the new file's path together
with the written Table. -/
def TableStore.write (st : TableStore) (rows : List (List Value))
    (schema : List (String × ColType)) : (String × Table) × TableStore :=
  let t : Table := ⟨schema, rows⟩
  ((freshPath st, t), ⟨(freshPath st, t.bytes) :: st.files⟩)

/-- Modelled from the spec: `load(path) -> Table` reads an existing on-disk
table file, failing with `CorruptTableError` when the file is absent or its
bytes do not decode to a Table. -/
def TableStore.load (st : TableStore) (path : String) :
    Except CorruptTableError Table :=
  match st.files.find? (fun f => f.1 == path) with
  | none => Except.error (CorruptTableError.corrupt path)
  | some f =>
    match decodeTable f.2 with
    | none => Except.error (CorruptTableError.corrupt path)
    | some t => Except.ok t

/-- C6: writing N rows via the Table Store and reloading the produced file by
path yields a Table with the identical row count, identical schema and
identical per-row content; load after write is the identity on table content. -/
theorem load_after_write_roundtrip (st : TableStore) (rows : List (List Value))
    (schema : List (String × ColType)) :
    (TableStore.write st rows schema).2.load (TableStore.write st rows schema).1.1 =
      Except.ok (⟨schema, rows⟩ : Table) ∧
    (⟨schema, rows⟩ : Table).numRows = rows.length := by
  refine ⟨?_, rfl⟩
  simp only [TableStore.write, TableStore.load]
  rw [List.find?_cons_of_pos _ (by simp)]
  simp [decodeTable_bytes]

/-! ## Fingerprint Engine (§4.2)

Modelled from the spec: `combine(base_fingerprint, transform_id,
transform_args) -> fingerprint` is a pure function of its three inputs;
`transform_args` is reduced to a canonical order-independent representation
(mapping keys sorted) before hashing.  Process-run-specific context (memory
addresses, session seeds, wall-clock time, machine identity) is made explicit
as a `ProcessEnv` value so that independence from it is a statable property. -/

/-- Modelled from the spec: a fingerprint is an opaque fixed-length content
hash (§3); here a natural below 2^64. -/
abbrev Fingerprint := Nat

/-- Modelled from the spec: everything that varies between process runs and
machines and must not influence a fingerprint (§4.2). -/
structure ProcessEnv where
  memAddr : Nat
  sessionSeed : Nat
  wallClock : Nat
  machineId : Nat
deriving DecidableEq, Repr

/-- One step of a 64-bit FNV-style fold over the serialized input. -/
def hashStep (h b : Nat) : Nat := (h * 1099511628211 + (b + 1)) % 2 ^ 64

/-- Fold a byte list into a running 64-bit hash. -/
def hashBytes (h : Nat) (bs : List Nat) : Nat := bs.foldl hashStep h

/-- Modelled from the spec: canonicalization of transform arguments —
mapping keys sorted, so the representation is order-independent (§4.2, §9). -/
def canonicalizeArgs (args : List (String × Value)) : List (String × Value) :=
  args.mergeSort (fun a b => a.1 ≤ b.1)

/-- Serialization of one canonicalized argument: its key then its value. -/
def encodeArg (a : String × Value) : List Nat :=
  encodeString a.1 ++ encodeVal a.2

/-- Hash of the base fingerprint, the transform identity and the
canonicalized arguments: the content `combine` computes. -/
def fingerprintOf (base : Fingerprint) (transformId : String)
    (args : List (String × Value)) : Fingerprint :=
  hashBytes
    (hashBytes (hashStep 14695981039346656037 base) (encodeString transformId))
    (encodeEach encodeArg (canonicalizeArgs args))

/-- Modelled from the spec: `combine` of the Fingerprint Engine (§4.2) —
hash of the base fingerprint, the transform identity and the canonicalized
arguments.  It takes the process environment as an explicit input so the
theorem that it ignores it is about this definition. -/
def combine (_env : ProcessEnv) (base : Fingerprint) (transformId : String)
    (args : List (String × Value)) : Fingerprint :=
  fingerprintOf base transformId args

/-- C1: `combine` returns the same fingerprint for equal (base fingerprint,
transform id, canonicalized args) on every call, in every process run and on
every machine: its output is independent of the process environment (memory
addresses, unrecorded random seeds, wall-clock time, machine identity) and
depends only on the three inputs. -/
theorem combine_deterministic (env₁ env₂ : ProcessEnv) (base : Fingerprint)
    (transformId : String) (args : List (String × Value)) :
    combine env₁ base transformId args = combine env₂ base transformId args := rfl

/-! ## Transform Cache Manager (§4.3)

Modelled from the spec: `get_or_compute(fingerprint, compute_fn) -> Table`
looks up an existing cache entry; on hit it returns the stored Table without
invoking `compute_fn`; on miss it invokes `compute_fn`, stores the result
under the fingerprint and returns it; if `compute_fn` raises, no cache entry
is created and the failure propagates as `TransformComputeError` wrapping the
cause.  Invocations of `compute_fn` are counted so at-most-once is statable. -/

/-- Modelled from the spec: §7, user transform logic failed — propagated
with the original cause. -/
structure TransformComputeError where
  cause : String
deriving DecidableEq, Repr

/-- Wrap an underlying cause into a `TransformComputeError`. -/
def TransformComputeError.wrap (cause : String) : TransformComputeError :=
  ⟨cause⟩

/-- Modelled from the spec: the on-disk cache — a mapping from fingerprint to
the materialized Table stored for it (§3 cache entry). -/
structure CacheState where
  entries : List (Fingerprint × Table)
deriving DecidableEq, Repr

/-- Cache lookup by fingerprint, the sole identity for cache entries. -/
def CacheState.lookup (c : CacheState) (fp : Fingerprint) : Option Table :=
  (c.entries.find? (fun e => e.1 == fp)).map Prod.snd

/-- The outcome of one `get_or_compute` call: the returned Table or the
propagated error, the cache afterwards, and how many times `compute_fn`
was invoked during the call. -/
structure GetOrComputeResult where
  result : Except TransformComputeError Table
  cache : CacheState
  invocations : Nat
deriving Repr

/-- Modelled from the spec: `get_or_compute` of the Transform Cache Manager
(§4.3).  A raising `compute_fn` is one returning `Except.error cause`. -/
def get_or_compute (c : CacheState) (fp : Fingerprint)
    (compute_fn : Unit → Except String Table) : GetOrComputeResult :=
  match c.lookup fp with
  | some t => ⟨Except.ok t, c, 0⟩
  | none =>
    match compute_fn () with
    | Except.ok t => ⟨Except.ok t, ⟨(fp, t) :: c.entries⟩, 1⟩
    | Except.error e => ⟨Except.error (TransformComputeError.wrap e), c, 1⟩

/-- C2: for a `compute_fn` that produces a Table, calling `get_or_compute`
twice with the same fingerprint invokes `compute_fn` at most once over both
calls, and the second call returns content identical to the first call's
result (on a hit the stored Table is returned without invoking
`compute_fn`). -/
theorem get_or_compute_idempotent (c : CacheState) (fp : Fingerprint)
    (compute_fn : Unit → Except String Table) (tbl : Table)
    (h : compute_fn () = Except.ok tbl) :
    (get_or_compute c fp compute_fn).invocations +
      (get_or_compute (get_or_compute c fp compute_fn).cache fp
        compute_fn).invocations ≤ 1 ∧
    (get_or_compute (get_or_compute c fp compute_fn).cache fp
        compute_fn).result = (get_or_compute c fp compute_fn).result := by
  cases h₀ : c.lookup fp with
  | some t => simp [get_or_compute, h₀]
  | none =>
    have h₁ : CacheState.lookup ⟨(fp, tbl) :: c.entries⟩ fp = some tbl := by
      simp [CacheState.lookup]
    simp [get_or_compute, h₀, h, h₁]

/-- Witness for C2 at a concrete cache, fingerprint and compute function. -/
theorem get_or_compute_idempotent_witness :
    (get_or_compute ⟨[]⟩ 0 (fun _ => Except.ok (⟨[], []⟩ : Table))).invocations +
      (get_or_compute (get_or_compute ⟨[]⟩ 0
          (fun _ => Except.ok (⟨[], []⟩ : Table))).cache 0
        (fun _ => Except.ok (⟨[], []⟩ : Table))).invocations ≤ 1 ∧
    (get_or_compute (get_or_compute ⟨[]⟩ 0
        (fun _ => Except.ok (⟨[], []⟩ : Table))).cache 0
      (fun _ => Except.ok (⟨[], []⟩ : Table))).result =
      (get_or_compute ⟨[]⟩ 0 (fun _ => Except.ok (⟨[], []⟩ : Table))).result :=
  get_or_compute_idempotent ⟨[]⟩ 0 _ ⟨[], []⟩ rfl

/-- C4: when `compute_fn` raises, `get_or_compute` leaves the cache state
unchanged (no entry created, none partially written), and on the path where
the computation is actually invoked (a cache miss) the failure propagates to
the caller as `TransformComputeError` wrapping the original cause. -/
theorem get_or_compute_error_propagates (c : CacheState) (fp : Fingerprint)
    (compute_fn : Unit → Except String Table) (cause : String)
    (h : compute_fn () = Except.error cause) :
    (get_or_compute c fp compute_fn).cache = c ∧
    (c.lookup fp = none →
      (get_or_compute c fp compute_fn).result =
        Except.error (TransformComputeError.wrap cause)) := by
  cases h₀ : c.lookup fp with
  | some t => simp [get_or_compute, h₀]
  | none => simp [get_or_compute, h₀, h]

/-- Witness for C4 at a concrete cache, fingerprint and raising compute
function. -/
theorem get_or_compute_error_propagates_witness :
    (get_or_compute ⟨[]⟩ 7 (fun _ => Except.error "boom")).cache = ⟨[]⟩ ∧
    (CacheState.lookup ⟨[]⟩ 7 = none →
      (get_or_compute ⟨[]⟩ 7 (fun _ => Except.error "boom")).result =
        Except.error (TransformComputeError.wrap "boom")) :=
  get_or_compute_error_propagates ⟨[]⟩ 7 _ "boom" rfl

/-! ## Concurrent cache materialization (§4.3, §5)

Modelled from the spec: the write-to-temp-then-atomic-rename protocol for
one fingerprint's target file.  Writer `i` computes content `content i`; the
shared state is the fingerprint's final cache path (absent or holding a
complete file) plus each writer's private temporary file, which may hold a
partial prefix.  A race ordering is an arbitrary interleaving of writer
steps: writing (part of) a temp file, atomically renaming a complete temp
file into the final path when that path is still absent, or discarding a
temp file.  Readers only ever observe the final path. -/

/-- Modelled from the spec: the cache directory's state for one fingerprint —
the final path's content, if present, and the temp files by writer id. -/
structure CacheFS where
  finalFile : Option (List Nat)
  temps : List (Nat × List Nat)
deriving DecidableEq, Repr

/-- Replace writer `i`'s temp file content. -/
def setTemp (temps : List (Nat × List Nat)) (i : Nat) (bs : List Nat) :
    List (Nat × List Nat) :=
  (i, bs) :: temps.filter (fun e => e.1 != i)

/-- Delete writer `i`'s temp file. -/
def removeTemp (temps : List (Nat × List Nat)) (i : Nat) :
    List (Nat × List Nat) :=
  temps.filter (fun e => e.1 != i)

/-- Writer `i`'s temp file content, if any. -/
def tempOf (temps : List (Nat × List Nat)) (i : Nat) : Option (List Nat) :=
  (temps.find? (fun e => e.1 == i)).map Prod.snd

/-- Modelled from the spec: one atomic step of some racing writer.  Partial
writes touch only the writer's own temp file; the rename into the final path
happens in one step and only when the final path is still absent and the
temp file holds the writer's complete content. -/
inductive WriterStep (content : Nat → List Nat) : CacheFS → CacheFS → Prop where
  | writeTemp (i k : Nat) (f : Option (List Nat)) (temps : List (Nat × List Nat)) :
      WriterStep content ⟨f, temps⟩ ⟨f, setTemp temps i ((content i).take k)⟩
  | rename (i : Nat) (temps : List (Nat × List Nat))
      (h : tempOf temps i = some (content i)) :
      WriterStep content ⟨none, temps⟩ ⟨some (content i), removeTemp temps i⟩
  | discard (i : Nat) (f : Option (List Nat)) (temps : List (Nat × List Nat)) :
      WriterStep content ⟨f, temps⟩ ⟨f, removeTemp temps i⟩

/-- The interleavings: reflexive-transitive closure of writer steps. -/
inductive Reach (content : Nat → List Nat) : CacheFS → CacheFS → Prop where
  | refl (s : CacheFS) : Reach content s s
  | tail {s t u : CacheFS} :
      Reach content s t → WriterStep content t u → Reach content s u

/-- The initial directory state for a fingerprint: no final file, no temps. -/
def initFS : CacheFS := ⟨none, []⟩

/-- C3: under any race ordering of N concurrent writers for one fingerprint,
a reader of the final cache path never observes a corrupted or partially
written file — the path is either absent or holds exactly one writer's
complete content — and at most one computation's result is kept: once the
final path holds a value, no later step changes it. -/
theorem atomic_rename_single_writer (content : Nat → List Nat) (s : CacheFS)
    (hr : Reach content initFS s) :
    (s.finalFile = none ∨ ∃ i, s.finalFile = some (content i)) ∧
    (∀ s' v, s.finalFile = some v → WriterStep content s s' →
      s'.finalFile = some v) := by
  have mono : ∀ t u : CacheFS, ∀ v, t.finalFile = some v →
      WriterStep content t u → u.finalFile = some v := by
    intro t u v hv hstep
    cases hstep with
    | writeTemp i k f temps => exact hv
    | rename i temps h => exact absurd hv (by simp)
    | discard i f temps => exact hv
  refine ⟨?_, fun s' v hv hstep => mono s s' v hv hstep⟩
  induction hr with
  | refl => exact Or.inl rfl
  | tail hreach hstep ih =>
    cases hstep with
    | writeTemp i k f temps => exact ih
    | rename i temps h => exact Or.inr ⟨i, rfl⟩
    | discard i f temps => exact ih

/-- A concrete two-writer content assignment for the C3 witness. -/
def content7 : Nat → List Nat := fun _ => [7]

/-- Witness for C3: a concrete race — writer 0 writes its temp file fully and
renames it into the final path — reaches a state the theorem then covers. -/
theorem atomic_rename_single_writer_witness :
    Reach content7 initFS ⟨some [7], []⟩ ∧
    ((⟨some [7], []⟩ : CacheFS).finalFile = none ∨
      ∃ i, (⟨some [7], []⟩ : CacheFS).finalFile = some (content7 i)) :=
  have step₁ : WriterStep content7 initFS ⟨none, [(0, [7])]⟩ :=
    WriterStep.writeTemp 0 1 none []
  have step₂ : WriterStep content7 ⟨none, [(0, [7])]⟩ ⟨some [7], []⟩ :=
    WriterStep.rename 0 [(0, [7])] rfl
  have hr : Reach content7 initFS ⟨some [7], []⟩ :=
    Reach.tail (Reach.tail (Reach.refl initFS) step₁) step₂
  ⟨hr, (atomic_rename_single_writer content7 ⟨some [7], []⟩ hr).1⟩

/-! ## Lazy View Composition (§4.4)

Modelled from the spec: a dataset view is a reference to a Table, an index
mapping into it and a lineage fingerprint.  Reorder-only transforms (filter,
sort, shuffle, row selection by split) compose a new index mapping over the
same Table and never rewrite it; concatenation materializes a new Table from
the two views' logical rows. -/

/-- Modelled from the spec: a Dataset view (§3) — Table reference, index
mapping and lineage fingerprint. -/
structure DatasetView where
  table : Table
  indices : List Nat
  fingerprint : Fingerprint
deriving DecidableEq, Repr

/-- The view's logical row count: the length of its index mapping. -/
def DatasetView.numRows (v : DatasetView) : Nat := v.indices.length

/-- The view invariant of §3: the index mapping's length equals the view's
logical row count, and every index is a valid row position in the referenced
Table. -/
def DatasetView.wf (v : DatasetView) : Prop :=
  v.indices.length = v.numRows ∧ ∀ i ∈ v.indices, i < v.table.numRows

/-- The row of the referenced Table a view index denotes. -/
def DatasetView.rowAt (v : DatasetView) (i : Nat) : List Value :=
  v.table.rows.getD i []

/-- The view's logical rows, in order. -/
def DatasetView.materializedRows (v : DatasetView) : List (List Value) :=
  v.indices.map v.rowAt

/-- Modelled from the spec: loading creates a view of a whole Table with the
identity index mapping. -/
def loadView (t : Table) : DatasetView :=
  ⟨t, List.range t.numRows, fingerprintOf 0 "load" []⟩

/-- Modelled from the spec: `filter` keeps the indices whose rows satisfy the
predicate — a new index mapping over the same Table, no rewrite. -/
def filterView (v : DatasetView) (p : List Value → Bool) : DatasetView :=
  ⟨v.table, v.indices.filter (fun i => p (v.rowAt i)),
    fingerprintOf v.fingerprint "filter" []⟩

/-- Modelled from the spec: `sort` reorders the index mapping by a row
comparator — a new index mapping over the same Table, no rewrite. -/
def sortView (v : DatasetView) (le : List Value → List Value → Bool) :
    DatasetView :=
  ⟨v.table, v.indices.mergeSort (fun i j => le (v.rowAt i) (v.rowAt j)),
    fingerprintOf v.fingerprint "sort" []⟩

/-- Modelled from the spec: `shuffle` permutes the index mapping by a
seed-determined rotation; the seed is part of the fingerprint's inputs. -/
def shuffleView (v : DatasetView) (seed : Nat) : DatasetView :=
  let k := seed % (v.indices.length + 1)
  ⟨v.table, v.indices.drop k ++ v.indices.take k,
    fingerprintOf v.fingerprint "shuffle" [("seed", Value.int seed)]⟩

/-- Modelled from the spec: `concatenate` materializes a new Table holding
both views' logical rows and re-indexes it identically. -/
def concatViews (v w : DatasetView) : DatasetView :=
  let t : Table := ⟨v.table.schema, v.materializedRows ++ w.materializedRows⟩
  ⟨t, List.range t.numRows, fingerprintOf v.fingerprint "concatenate" []⟩

/-- Modelled from the spec: `train_test_split` splits a view's index mapping
at a point into two views over the same Table. -/
def splitViews (v : DatasetView) (n : Nat) : DatasetView × DatasetView :=
  (⟨v.table, v.indices.take n,
      fingerprintOf v.fingerprint "split" [("part", Value.int 0), ("n", Value.int n)]⟩,
   ⟨v.table, v.indices.drop n,
      fingerprintOf v.fingerprint "split" [("part", Value.int 1), ("n", Value.int n)]⟩)

/-- C5: applying a filter, sort or shuffle transform to a view leaves the
underlying Table — and hence the bytes of its table file — unchanged; only a
new index mapping is produced, never an in-place modification of the base
Table (row-rewriting concatenation builds a fresh Table value instead). -/
theorem reorder_transforms_do_not_mutate_table (v : DatasetView)
    (p : List Value → Bool) (le : List Value → List Value → Bool) (seed : Nat) :
    (filterView v p).table = v.table ∧
    (filterView v p).table.bytes = v.table.bytes ∧
    (sortView v le).table = v.table ∧
    (sortView v le).table.bytes = v.table.bytes ∧
    (shuffleView v seed).table = v.table ∧
    (shuffleView v seed).table.bytes = v.table.bytes :=
  ⟨rfl, rfl, rfl, rfl, rfl, rfl⟩

/-- C8: every core operation yields a view satisfying the index-mapping
invariant — the mapping's length equals the view's logical row count and
every index is a valid row position in the referenced Table: loading
establishes it, and filter, sort, shuffle, concatenation and splitting
preserve it. -/
theorem view_operations_preserve_wf (t : Table) (v w : DatasetView)
    (p : List Value → Bool) (le : List Value → List Value → Bool)
    (seed n : Nat) :
    (loadView t).wf ∧
    (v.wf → (filterView v p).wf) ∧
    (v.wf → (sortView v le).wf) ∧
    (v.wf → (shuffleView v seed).wf) ∧
    (concatViews v w).wf ∧
    (v.wf → (splitViews v n).1.wf) ∧
    (v.wf → (splitViews v n).2.wf) := by
  refine ⟨⟨rfl, ?_⟩, fun hv => ⟨rfl, ?_⟩, fun hv => ⟨rfl, ?_⟩, fun hv => ⟨rfl, ?_⟩,
    ⟨rfl, ?_⟩, fun hv => ⟨rfl, ?_⟩, fun hv => ⟨rfl, ?_⟩⟩
  · intro i hi
    exact List.mem_range.mp hi
  · intro i hi
    exact hv.2 i (List.mem_of_mem_filter hi)
  · intro i hi
    exact hv.2 i (List.mem_mergeSort.mp hi)
  · intro i hi
    rcases List.mem_append.mp hi with h | h
    · exact hv.2 i (List.mem_of_mem_drop h)
    · exact hv.2 i (List.mem_of_mem_take h)
  · intro i hi
    exact List.mem_range.mp hi
  · intro i hi
    exact hv.2 i (List.mem_of_mem_take hi)
  · intro i hi
    exact hv.2 i (List.mem_of_mem_drop hi)

/-- A concrete one-column Table for the C8 witness. -/
def witnessTable : Table :=
  ⟨[("id", ColType.int)], [[Value.int 0], [Value.int 1], [Value.int 2]]⟩

/-- A concrete well-formed view over `witnessTable` for the C8 witness. -/
def witnessView : DatasetView := ⟨witnessTable, [2, 0, 1], 0⟩

/-- Witness for C8 at a concrete table and pair of views: the invariant holds
after each operation. -/
theorem view_operations_preserve_wf_witness :
    (loadView witnessTable).wf ∧
    (filterView witnessView (fun _ => true)).wf ∧
    (sortView witnessView (fun _ _ => true)).wf ∧
    (shuffleView witnessView 5).wf ∧
    (concatViews witnessView witnessView).wf ∧
    (splitViews witnessView 1).1.wf ∧
    (splitViews witnessView 1).2.wf :=
  have hv : witnessView.wf := ⟨rfl, by decide⟩
  have h := view_operations_preserve_wf witnessTable witnessView witnessView
    (fun _ => true) (fun _ _ => true) 5 1
  ⟨h.1, h.2.1 hv, h.2.2.1 hv, h.2.2.2.1 hv, h.2.2.2.2.1,
    h.2.2.2.2.2.1 hv, h.2.2.2.2.2.2 hv⟩

/-! ## Streaming Iterator (§4.5)

Modelled from the spec: `open(shard_list, resume_state)` produces a lazy,
forward-only sequence of decoded records, restartable only via an explicit
resume state (shard index + within-shard offset).  For a bounded shard list
the produced sequence is a list; advancing the iterator one record yields
the record and the resume state to continue from. -/

/-- Modelled from the spec: a decoded record of the streaming path. -/
abbrev Record := List Value

/-- Modelled from the spec: the resume cursor — shard index plus
within-shard offset (§3 shard / stream cursor). -/
structure ResumeState where
  shard : Nat
  offset : Nat
deriving DecidableEq, Repr

/-- The uninterrupted record sequence of a bounded shard list. -/
def joinShards : List (List Record) → List Record
  | [] => []
  | s :: rest => s ++ joinShards rest

/-- Advance over the shards from shard index `i`, offset `off`, where
`content` is the suffix of the shard list from index `i`: skip exhausted
shards, then yield the next record with the cursor to continue from. -/
def nextGo : List (List Record) → Nat → Nat → Option (Record × ResumeState)
  | [], _, _ => none
  | s :: rest, i, off =>
    match s.drop off with
    | [] => nextGo rest (i + 1) 0
    | r :: _ => some (r, ⟨i, off + 1⟩)

/-- Modelled from the spec: advancing the iterator by one record from a
resume state, yielding the record and the next resume state. -/
def nextRecord (sl : List (List Record)) (st : ResumeState) :
    Option (Record × ResumeState) :=
  nextGo (sl.drop st.shard) st.shard st.offset

/-- The remaining records of the shard-list suffix `content` from offset
`off` into its first shard. -/
def openGo : List (List Record) → Nat → List Record
  | [], _ => []
  | s :: rest, off => s.drop off ++ joinShards rest

/-- Modelled from the spec: `open(shard_list, resume_state)` — the sequence
of records the iterator yields from the given resume state on. -/
def openStream (sl : List (List Record)) (st : ResumeState) : List Record :=
  openGo (sl.drop st.shard) st.offset

/-- Modelled from the spec: a fresh iteration session starts at the first
shard, offset zero. -/
def startState : ResumeState := ⟨0, 0⟩

/-- The resume state after advancing the iterator `k` records from `st`. -/
def advance (sl : List (List Record)) (st : ResumeState) : Nat → ResumeState
  | 0 => st
  | k + 1 =>
    match nextRecord sl st with
    | none => st
    | some (_, st') => advance sl st' k

theorem openGo_zero (content : List (List Record)) :
    openGo content 0 = joinShards content := by
  cases content with
  | nil => rfl
  | cons s rest => simp [openGo, joinShards]

theorem openStream_startState (sl : List (List Record)) :
    openStream sl startState = joinShards sl := by
  simp [openStream, startState, openGo_zero]

theorem nextGo_spec (sl : List (List Record)) (content : List (List Record)) :
    ∀ i off, content = sl.drop i →
      (nextGo content i off = none → openGo content off = []) ∧
      (∀ r st', nextGo content i off = some (r, st') →
        openGo content off = r :: openStream sl st') := by
  induction content with
  | nil =>
    intro i off _
    exact ⟨fun _ => rfl, fun r st' h => by simp [nextGo] at h⟩
  | cons s rest ih =>
    intro i off hc
    have hrest : rest = sl.drop (i + 1) := by
      rw [← List.tail_drop, ← hc]
      rfl
    cases hdrop : s.drop off with
    | nil =>
      have hopen : openGo (s :: rest) off = openGo rest 0 := by
        rw [openGo_zero]
        simp [openGo, hdrop]
      have hnext : nextGo (s :: rest) i off = nextGo rest (i + 1) 0 := by
        simp [nextGo, hdrop]
      rw [hopen, hnext]
      exact ih (i + 1) 0 hrest
    | cons r tail₀ =>
      have htail : tail₀ = s.drop (off + 1) := by
        rw [← List.tail_drop, hdrop]
        rfl

      have hnext : nextGo (s :: rest) i off = some (r, ⟨i, off + 1⟩) := by
        simp [nextGo, hdrop]
      refine ⟨fun h => by rw [hnext] at h; exact absurd h (by simp), ?_⟩
      intro r' st' h
      rw [hnext] at h
      obtain ⟨hr, hst⟩ : r = r' ∧ (⟨i, off + 1⟩ : ResumeState) = st' := by
        constructor <;> { injection h with h₁; injection h₁ }
      subst hr
      subst hst
      have : openStream sl ⟨i, off + 1⟩ = openGo (s :: rest) (off + 1) := by
        simp [openStream, ← hc]
      rw [this]
      simp [openGo, hdrop, htail]

theorem nextRecord_none (sl : List (List Record)) (st : ResumeState)
    (h : nextRecord sl st = none) : openStream sl st = [] :=
  (nextGo_spec sl (sl.drop st.shard) st.shard st.offset rfl).1 h

theorem nextRecord_some (sl : List (List Record)) (st st' : ResumeState)
    (r : Record) (h : nextRecord sl st = some (r, st')) :
    openStream sl st = r :: openStream sl st' :=
  (nextGo_spec sl (sl.drop st.shard) st.shard st.offset rfl).2 r st' h

theorem openStream_advance (sl : List (List Record)) (k : Nat)
    (st : ResumeState) :
    openStream sl (advance sl st k) = (openStream sl st).drop k := by
  induction k generalizing st with
  | zero => rfl
  | succ k ih =>
    cases h : nextRecord sl st with
    | none =>
      have h₀ : openStream sl st = [] := nextRecord_none sl st h
      simp [advance, h, h₀]
    | some p =>
      obtain ⟨r, st'⟩ := p
      have h₀ : openStream sl st = r :: openStream sl st' :=
        nextRecord_some sl st st' r h
      simp [advance, h, h₀, ih st']

/-- C7: for a bounded shard list, iterating to record index K, persisting the
resume state `advance sl startState K`, and opening again with that state
yields exactly the remaining sequence of uninterrupted iteration from the
start with its first K records removed. -/
theorem streaming_resumption (sl : List (List Record)) (K : Nat) :
    openStream sl (advance sl startState K) = (joinShards sl).drop K := by
  rw [openStream_advance, openStream_startState]
